import Mathlib

/-!
Verification model for the yaml parser/stringifier library (package `yaml`,
version 2.0.0-3).  The repository snapshot ships only the error-handling test
suite and the public type declarations; the implementation proper
(`src/errors.js`, `src/cst/*`, `src/doc/*`, `src/index.js`) is not included.
The definitions below are therefore modelled from the specification's
description of the three-layer pipeline (CST parser, AST resolver,
stringifier), restricted to the fragment of YAML that the specification's
scenarios and the shipped tests exercise: plain, double-quoted and tagged
scalars, flow maps and sequences, block mappings with plain keys, comments,
directives, and aliases.  Concrete diagnostic shapes (error names, messages,
ranges) follow the shipped test suite where it pins them down.
-/

namespace YamlModel

/-- Modelled from the spec: the diagnostic name carried by every error or
warning object (`YAMLSyntaxError`, `YAMLSemanticError`, `YAMLReferenceError`,
`YAMLWarning`); the class hierarchy lives in the missing `src/errors.js`. -/
inductive ErrName where
  | YAMLSyntaxError
  | YAMLSemanticError
  | YAMLReferenceError
  | YAMLWarning
deriving DecidableEq, Repr

/-- Modelled from the spec: the CST node type an error is bound to
(`nodeType` field of diagnostics; `Type` enum of the missing `src/constants.js`). -/
inductive NodeType where
  | DOCUMENT
  | DIRECTIVE
  | FLOW_MAP
  | FLOW_SEQ
  | PLAIN
  | QUOTE_DOUBLE
  | MAP
  | SEQ
  | ALIAS
  | TAG
deriving DecidableEq, Repr

/-- Modelled from the spec: one diagnostic record, exposing `name`, `message`,
`nodeType` and a byte `range` (the missing `src/errors.js` classes). -/
structure YErr where
  name : ErrName
  message : String
  nodeType : NodeType
  range : Nat × Nat
deriving DecidableEq, Repr

/-- Modelled from the spec: the resolved value graph produced by the AST
resolver and consumed by `toJS` (scalars, sequences, mappings); the missing
`src/ast` directory.  Aliases are resolved away or replaced by null. -/
inductive V where
  | vnull
  | vbool (b : Bool)
  | vint (n : Int)
  | vstr (s : String)
  | vseq (items : List V)
  | vmap (items : List (V × V))

/- ## Character classes and low-level scanning helpers -/

/-- Characters that may occur in a plain scalar token of the modelled
fragment; from the spec's plain-scalar termination rules. -/
def plainCharOk (c : Char) : Bool :=
  !(c = ',' || c = ']' || c = '\x7d' || c = '\x7b' || c = '[' || c = ':' ||
    c = ' ' || c = '\n' || c = '\t' || c = '#' || c = '"' || c = Char.ofNat 39 ||
    c = '*' || c = '!' || c = '&' || c = '%' || c = '@')

/-- Take the longest prefix of plain-scalar characters; returns the token and
the remaining input. -/
def takePlain : List Char → List Char × List Char
  | [] => ([], [])
  | c :: rest =>
    if plainCharOk c then
      let (t, r) := takePlain rest
      (c :: t, r)
    else ([], c :: rest)

/-- Skip space characters, advancing the offset. -/
def skipSpaces : List Char → Nat → List Char × Nat
  | [], p => ([], p)
  | c :: rest, p =>
    if c = ' ' then skipSpaces rest (p + 1) else (c :: rest, p)

/-- Skip spaces and newlines, advancing the offset. -/
def skipWSNL : List Char → Nat → List Char × Nat
  | [], p => ([], p)
  | c :: rest, p =>
    if c = ' ' || c = '\n' then skipWSNL rest (p + 1) else (c :: rest, p)

/-- Consume the rest of the current line including its newline. -/
def dropLine : List Char → Nat → List Char × Nat
  | [], p => ([], p)
  | c :: rest, p =>
    if c = '\n' then (rest, p + 1) else dropLine rest (p + 1)

/- ## Decimal numerals -/

/-- Accumulating decimal reader for digit runs. -/
def parseDigits : List Char → Nat → Nat
  | [], acc => acc
  | c :: rest, acc => parseDigits rest (acc * 10 + (c.toNat - 48))

/-- Fuel-indexed decimal printer (fuel keeps the recursion structural). -/
def natToDigitsAux : Nat → Nat → List Char → List Char
  | 0, _, acc => acc
  | fuel + 1, n, acc =>
    if n < 10 then Char.ofNat (48 + n) :: acc
    else natToDigitsAux fuel (n / 10) (Char.ofNat (48 + n % 10) :: acc)

/-- Decimal digits of a natural number. -/
def natToDigits (n : Nat) : List Char := natToDigitsAux (n + 1) n []

/-- Decimal form of an integer, with a leading minus sign when negative. -/
def intToDigits : Int → List Char
  | Int.ofNat n => natToDigits n
  | Int.negSucc n => '-' :: natToDigits (n + 1)

/-- Does this character denote a decimal digit? -/
def isDig (c : Char) : Bool := 48 ≤ c.toNat && c.toNat ≤ 57

/-- Is this token a run of decimal digits? -/
def digitRun (l : List Char) : Bool :=
  !l.isEmpty && l.all isDig

/-- Does this token use the modelled integer syntax (optional minus sign and
a digit run)? -/
def intSyntax (l : List Char) : Bool :=
  if l.head? = some '-' then digitRun (l.drop 1) else digitRun l

/- ## Implicit scalar resolution (core schema fragment) -/

/-- Modelled from the spec: implicit resolution of a plain scalar under the
core schema (null, boolean and integer forms; everything else is a string);
the missing `src/tags/core.js`. -/
def resolvePlain (t : List Char) : V :=
  if t = [] then V.vnull
  else if t = ['n', 'u', 'l', 'l'] || t = ['N', 'u', 'l', 'l'] ||
          t = ['N', 'U', 'L', 'L'] || t = ['~'] then V.vnull
  else if t = ['t', 'r', 'u', 'e'] || t = ['T', 'r', 'u', 'e'] ||
          t = ['T', 'R', 'U', 'E'] then V.vbool true
  else if t = ['f', 'a', 'l', 's', 'e'] || t = ['F', 'a', 'l', 's', 'e'] ||
          t = ['F', 'A', 'L', 'S', 'E'] then V.vbool false
  else if intSyntax t then
    if t.head? = some '-' then V.vint (-(parseDigits (t.drop 1) 0 : Int))
    else V.vint (parseDigits t 0)
  else V.vstr (String.mk t)

/- ## Double-quoted scalars -/

/-- Unescape one backslash-escaped character of a double-quoted scalar. -/
def unescChar (c : Char) : Char :=
  if c = 'n' then '\n'
  else if c = 't' then '\t'
  else if c = 'r' then '\r'
  else c

/-- The error recorded when a double-quoted scalar is not closed before the
input ends. -/
def quoteEndError (p : Nat) : YErr :=
  ⟨ErrName.YAMLSemanticError, "Missing closing \"quote", NodeType.QUOTE_DOUBLE, (p, p + 1)⟩

/-- Prepend one decoded character to a quoted-scalar parse result. -/
def prependC (c : Char) (r : List Char × List Char × Nat × List YErr) :
    List Char × List Char × Nat × List YErr :=
  (c :: r.1, r.2.1, r.2.2.1, r.2.2.2)

/-- Modelled from the spec: read the body of a double-quoted scalar after the
opening quote, processing backslash escapes, up to the closing quote; returns
the text, the remaining input, the new offset and any diagnostics (the missing
`src/cst/QuoteDouble.js`). -/
def readQ : List Char → Nat → List Char × List Char × Nat × List YErr
  | [], p => ([], [], p, [quoteEndError p])
  | [c], p =>
    if c = '"' then ([], [], p + 1, [])
    else if c = '\\' then ([], [], p + 1, [quoteEndError (p + 1)])
    else prependC c (readQ [] (p + 1))
  | c :: e :: rest, p =>
    if c = '"' then ([], e :: rest, p + 1, [])
    else if c = '\\' then prependC (unescChar e) (readQ rest (p + 2))
    else prependC c (readQ (e :: rest) (p + 1))

/- ## Tags -/

/-- Take a tag token (after the leading `!`): characters up to whitespace or a
flow delimiter. -/
def takeTagTok : List Char → List Char × List Char
  | [] => ([], [])
  | c :: rest =>
    if c = ' ' || c = '\n' || c = ',' || c = ']' || c = '\x7d' then ([], c :: rest)
    else
      let (t, r) := takeTagTok rest
      (c :: t, r)

/-- Modelled from the spec: tag shorthands recognised by the built-in schemas;
any other explicit tag is unknown and falls back by shape with a warning. -/
def knownTags : List String :=
  ["!!str", "!!int", "!!bool", "!!null", "!!float", "!!map", "!!seq", "!!binary"]

/-- The warning recorded when an explicit tag is not available in the schema;
text as pinned by the shipped test suite. -/
def tagFallbackWarning (tag : String) (shape : String) (range : Nat × Nat) : YErr :=
  ⟨ErrName.YAMLWarning,
   "The tag " ++ tag ++ " is unavailable, falling back to tag:yaml.org,2002:" ++ shape,
   NodeType.TAG, range⟩

/- ## Flow-collection diagnostics -/

/-- Modelled from the spec: the error recorded when a flow collection is not
closed before the input ends; its range is the single character immediately
after the last consumed byte. -/
def flowEndError (isMap : Bool) (p : Nat) : YErr :=
  ⟨ErrName.YAMLSemanticError,
   if isMap then "Expected flow map to end with \x7d"
   else "Expected flow sequence to end with ]",
   if isMap then NodeType.FLOW_MAP else NodeType.FLOW_SEQ,
   (p, p + 1)⟩

/-- Modelled from the spec: the error recorded for an empty flow-collection
item, pointing at the unexpected comma. -/
def flowCommaError (isMap : Bool) (p : Nat) : YErr :=
  ⟨ErrName.YAMLSyntaxError,
   if isMap then "Flow map contains an unexpected ,"
   else "Flow sequence contains an unexpected ,",
   if isMap then NodeType.FLOW_MAP else NodeType.FLOW_SEQ,
   (p, p + 1)⟩

/-- The error recorded when an alias references an anchor that has not been
defined. -/
def aliasError (name : String) (range : Nat × Nat) : YErr :=
  ⟨ErrName.YAMLReferenceError, "Aliased anchor not found: " ++ name, NodeType.ALIAS, range⟩

/- ## The node / flow-collection parser -/

/-- Result of parsing one node: the resolved value (none when resolution
failed), the remaining input, the new offset, and accumulated diagnostics. -/
structure PRes where
  val : Option V
  rest : List Char
  pos : Nat
  errs : List YErr
  warns : List YErr

/-- Parser mode: either a single node, or the item loop of a flow collection
(carrying the collection kind, the items so far, and whether an item was just
parsed since the last separator). -/
inductive PMode where
  | node
  | flow (isMap : Bool) (items : List (V × Option V)) (afterItem : Bool)

/-- Close a flow collection: build the mapping or sequence value from the
accumulated items (a map item without a value resolves to null). -/
def closeFlow (isMap : Bool) (items : List (V × Option V)) : V :=
  if isMap then V.vmap (items.map (fun kv => (kv.1, kv.2.getD V.vnull)))
  else V.vseq (items.map Prod.fst)

/-- Prepend earlier diagnostics to a parse result. -/
def withPre (es ws : List YErr) (r : PRes) : PRes :=
  ⟨r.val, r.rest, r.pos, es ++ r.errs, ws ++ r.warns⟩

/-- Modelled from the spec: the recursive-descent parser for value nodes and
flow collections (the missing `src/cst` scanners together with the
`src/resolveNode.js` resolver, fused for the modelled fragment).  `fuel` keeps
the recursion structural; the document driver supplies more fuel than the
input length so that it is never exhausted on inputs the fragment covers.
Flow items are separated by commas; an empty item records a syntax error
pointing at the comma but the collection is kept; a missing terminator records
a semantic error one character past the last consumed byte.  Unknown explicit
tags warn and fall back by shape; aliases to unknown anchors record a
reference error and resolve to nothing. -/
def parseF : Nat → PMode → List Char → Nat → PRes
  | 0, _, cs, p =>
    ⟨none, cs, p, [⟨ErrName.YAMLSemanticError, "Parser ran out of fuel", NodeType.DOCUMENT, (p, p + 1)⟩], []⟩
  | fuel + 1, PMode.node, cs, p =>
    match cs with
    | [] => ⟨some V.vnull, [], p, [], []⟩
    | c :: rest =>
      if c = '\x7b' then parseF fuel (PMode.flow true [] false) rest (p + 1)
      else if c = '[' then parseF fuel (PMode.flow false [] false) rest (p + 1)
      else if c = '"' then
        let q := readQ rest (p + 1)
        ⟨some (V.vstr (String.mk q.1)), q.2.1, q.2.2.1, q.2.2.2, []⟩
      else if c = '*' then
        let (t, r) := takePlain rest
        ⟨none, r, p + 1 + t.length, [aliasError (String.mk t) (p, p + 1 + t.length)], []⟩
      else if c = '!' then
        let (tg, r1) := takeTagTok rest
        let tag := String.mk ('!' :: tg)
        let known := knownTags.contains tag
        let tagRange : Nat × Nat := (p, p + 1 + tg.length)
        let p1 := p + 1 + tg.length
        let (r2, p2) := skipSpaces r1 p1
        match r2 with
        | [] =>
          ⟨some V.vnull, [], p2,
           [], if known then [] else [tagFallbackWarning tag "str" tagRange]⟩
        | c2 :: rest2 =>
          if c2 = '\x7b' then
            let r := parseF fuel (PMode.flow true [] false) rest2 (p2 + 1)
            withPre [] (if known then [] else [tagFallbackWarning tag "map" tagRange]) r
          else if c2 = '[' then
            let r := parseF fuel (PMode.flow false [] false) rest2 (p2 + 1)
            withPre [] (if known then [] else [tagFallbackWarning tag "seq" tagRange]) r
          else if c2 = '"' then
            let q := readQ rest2 (p2 + 1)
            ⟨some (V.vstr (String.mk q.1)), q.2.1, q.2.2.1, q.2.2.2,
             if known then [] else [tagFallbackWarning tag "str" tagRange]⟩
          else
            let (t, r) := takePlain (c2 :: rest2)
            let raw := V.vstr (String.mk t)
            ⟨some (if tag = "!!str" || !known then raw else resolvePlain t), r, p2 + t.length,
             [], if known then [] else [tagFallbackWarning tag "str" tagRange]⟩
      else
        let (t, r) := takePlain (c :: rest)
        ⟨some (resolvePlain t), r, p + t.length, [], []⟩
  | fuel + 1, PMode.flow isMap items afterItem, cs, p =>
    let s1 := skipWSNL cs p
    match s1.1 with
    | [] => ⟨some (closeFlow isMap items), [], s1.2, [flowEndError isMap s1.2], []⟩
    | c :: rest =>
      if c = (if isMap then '\x7d' else ']') then
        ⟨some (closeFlow isMap items), rest, s1.2 + 1, [], []⟩
      else if c = (if isMap then ']' else '\x7d') then
        ⟨some (closeFlow isMap items), rest, s1.2 + 1, [flowEndError isMap s1.2], []⟩
      else if c = ',' then
        if afterItem then parseF fuel (PMode.flow isMap items false) rest (s1.2 + 1)
        else
          let r := parseF fuel (PMode.flow isMap items false) rest (s1.2 + 1)
          withPre [flowCommaError isMap s1.2] [] r
      else
        let r1 := parseF fuel PMode.node (c :: rest) s1.2
        if isMap then
          let s2 := skipSpaces r1.rest r1.pos
          match s2.1 with
          | ':' :: rest2 =>
            let s3 := skipSpaces rest2 (s2.2 + 1)
            let r2 := parseF fuel PMode.node s3.1 s3.2
            let r3 := parseF fuel
              (PMode.flow isMap (items ++ [(r1.val.getD V.vnull, some (r2.val.getD V.vnull))]) true)
              r2.rest r2.pos
            withPre (r1.errs ++ r2.errs) (r1.warns ++ r2.warns) r3
          | _ =>
            let r3 := parseF fuel
              (PMode.flow isMap (items ++ [(r1.val.getD V.vnull, none)]) true) s2.1 s2.2
            withPre r1.errs r1.warns r3
        else
          let r3 := parseF fuel
            (PMode.flow isMap (items ++ [(r1.val.getD V.vnull, none)]) true) r1.rest r1.pos
          withPre r1.errs r1.warns r3

/- ## Block mappings -/

/-- The error recorded for a tab character used as structural indentation. -/
def tabIndentError (p : Nat) : YErr :=
  ⟨ErrName.YAMLSemanticError, "A tab character must not be used for indentation",
   NodeType.PLAIN, (p, p + 1)⟩

/-- The error recorded when the node on a tab-indented line cannot be
attached after error recovery consumed the line. -/
def tabNodeError (p len : Nat) : YErr :=
  ⟨ErrName.YAMLSemanticError, "Failed to resolve PLAIN node here",
   NodeType.PLAIN, (p, p + len)⟩

/-- The error recorded for a block-mapping item that starts at a different
column than its siblings. -/
def badIndentError (p : Nat) : YErr :=
  ⟨ErrName.YAMLSemanticError, "All collection items must start at the same column",
   NodeType.MAP, (p, p + 1)⟩

/-- The error recorded for an implicit key with no following value. -/
def implicitKeyError (p len : Nat) : YErr :=
  ⟨ErrName.YAMLSemanticError, "Implicit map keys need to be followed by map values",
   NodeType.PLAIN, (p, p + len)⟩

/-- Drop trailing spaces from a token. -/
def trimRight (l : List Char) : List Char :=
  (l.reverse.dropWhile (fun c => c = ' ')).reverse

/-- Modelled from the spec: parse the value written after `key: ` on the same
line (plain to end of line, double-quoted, flow collection, tagged node or
alias), returning the value, remaining input, offset and diagnostics. -/
def parseInline (fuel : Nat) (cs : List Char) (p : Nat) :
    Option V × List Char × Nat × List YErr × List YErr :=
  match cs with
  | [] => (some V.vnull, [], p, [], [])
  | c :: rest =>
    if c = '"' then
      let q := readQ rest (p + 1)
      (some (V.vstr (String.mk q.1)), q.2.1, q.2.2.1, q.2.2.2, [])
    else if c = '\x7b' || c = '[' || c = '*' || c = '!' then
      let r := parseF fuel PMode.node (c :: rest) p
      (r.val, r.rest, r.pos, r.errs, r.warns)
    else
      let line := (c :: rest).takeWhile (fun ch => !(ch = '\n'))
      let t := trimRight line
      (some (resolvePlain t), (c :: rest).drop line.length, p + line.length, [], [])

/-- Parse one `key: value` entry of a block mapping (key token, colon, inline
value or empty value); consumes through the end of the entry's line. -/
def parseBlockEntry (fuel : Nat) (cs : List Char) (p : Nat) :
    Option (V × V) × List Char × Nat × List YErr × List YErr :=
  let (t, r1) := takePlain cs
  let p1 := p + t.length
  let s := skipSpaces r1 p1
  match s.1 with
  | ':' :: rest2 =>
    let s2 := skipSpaces rest2 (s.2 + 1)
    match s2.1 with
    | [] => (some (resolvePlain t, V.vnull), [], s2.2, [], [])
    | c2 :: rest3 =>
      if c2 = '\n' then
        (some (resolvePlain t, V.vnull), rest3, s2.2 + 1, [], [])
      else
        let (v, r3, p3, es, ws) := parseInline fuel (c2 :: rest3) s2.2
        let d := dropLine r3 p3
        (some (resolvePlain t, v.getD V.vnull), d.1, d.2, es, ws)
  | _ =>
    let d := dropLine s.1 s.2
    (none, d.1, d.2, [implicitKeyError p t.length], [])

/-- Modelled from the spec: the block-mapping parser for top-level mappings of
the fragment: items share column zero; a tab in an indent span records a
semantic error for the tab and a second one for the node lost to end-of-line
recovery; an item at a deeper column records an indentation error but is kept;
a key without `:` records an implicit-key error (the missing
`src/cst/BlockValue.js` and `src/resolveSeq.js` mapping resolution). -/
def parseBlockMap : Nat → List Char → Nat →
    List (V × V) × List Char × Nat × List YErr × List YErr
  | 0, cs, p =>
    ([], cs, p, [⟨ErrName.YAMLSemanticError, "Parser ran out of fuel", NodeType.DOCUMENT, (p, p + 1)⟩], [])
  | fuel + 1, cs, p =>
    match cs with
    | [] => ([], [], p, [], [])
    | c :: rest =>
      if c = '\n' then parseBlockMap fuel rest (p + 1)
      else if c = '#' then
        let d := dropLine rest (p + 1)
        parseBlockMap fuel d.1 d.2
      else if c = '\t' then
        let line := (c :: rest).takeWhile (fun ch => !(ch = '\n'))
        let d := dropLine (c :: rest) p
        let (its, r2, p2, es, ws) := parseBlockMap fuel d.1 d.2
        (its, r2, p2, tabIndentError p :: tabNodeError (p + 1) (line.length - 1) :: es, ws)
      else if (c :: rest).take 3 = ['-', '-', '-'] || (c :: rest).take 3 = ['.', '.', '.'] then
        ([], c :: rest, p, [], [])
      else if c = ' ' then
        let s := skipSpaces (c :: rest) p
        let (it, r1, p1, es1, ws1) := parseBlockEntry fuel s.1 s.2
        let (its, r2, p2, es2, ws2) := parseBlockMap fuel r1 p1
        (it.toList ++ its, r2, p2, badIndentError p :: es1 ++ es2, ws1 ++ ws2)
      else
        let (it, r1, p1, es1, ws1) := parseBlockEntry fuel (c :: rest) p
        let (its, r2, p2, es2, ws2) := parseBlockMap fuel r1 p1
        (it.toList ++ its, r2, p2, es1 ++ es2, ws1 ++ ws2)

/- ## Document-level parsing -/

/-- Skip blank lines, spaces and comment lines before or after a node. -/
def skipProlog : Nat → List Char → Nat → List Char × Nat
  | 0, cs, p => (cs, p)
  | fuel + 1, cs, p =>
    match cs with
    | [] => ([], p)
    | c :: rest =>
      if c = ' ' || c = '\n' then skipProlog fuel rest (p + 1)
      else if c = '#' then
        let d := dropLine rest (p + 1)
        skipProlog fuel d.1 d.2
      else (c :: rest, p)

/-- Accumulator-based splitter for space-separated parameter tokens. -/
def splitParamsAux : List Char → List Char → List (List Char)
  | [], acc => if acc.isEmpty then [] else [acc.reverse]
  | c :: rest, acc =>
    if c = ' ' then
      if acc.isEmpty then splitParamsAux rest []
      else acc.reverse :: splitParamsAux rest []
    else splitParamsAux rest (c :: acc)

/-- Split a directive line into its space-separated parameter tokens. -/
def splitParams (l : List Char) : List (List Char) := splitParamsAux l []

/-- The error recorded for a `%YAML` or `%TAG` directive with too few
parameters; bound to the directive node. -/
def directiveParamError (name : String) (range : Nat × Nat) : YErr :=
  ⟨ErrName.YAMLSemanticError, "Insufficient parameters given for %" ++ name ++ " directive",
   NodeType.DIRECTIVE, range⟩

/-- The warning recorded for a directive that is neither `%YAML` nor `%TAG`;
such directives are preserved literally. -/
def directiveNameWarning (name : String) (range : Nat × Nat) : YErr :=
  ⟨ErrName.YAMLWarning, "YAML only supports %TAG and %YAML directives, and not %" ++ name,
   NodeType.DIRECTIVE, range⟩

/-- Modelled from the spec: the error recorded when directives are not
followed by a `---` directives-end marker line; bound to the document node. -/
def missingDirEndError (p : Nat) : YErr :=
  ⟨ErrName.YAMLSemanticError, "Missing directives-end indicator line",
   NodeType.DOCUMENT, (p, p + 1)⟩

/-- Modelled from the spec: the directive reader: consumes `%`-lines, records
the `%YAML` version, and diagnoses malformed or unknown directives (the
missing `src/cst/Directive.js` and `src/doc/Document.js` directive
handling). -/
def parseDirectives : Nat → List Char → Nat →
    Nat × Option String × List Char × Nat × List YErr × List YErr
  | 0, cs, p => (0, none, cs, p, [], [])
  | fuel + 1, cs, p =>
    match cs with
    | [] => (0, none, [], p, [], [])
    | c :: rest =>
      if c = '%' then
        let line := rest.takeWhile (fun ch => !(ch = '\n'))
        let d := dropLine rest (p + 1)
        let nameTok := line.takeWhile (fun ch => !(ch = ' '))
        let name := String.mk nameTok
        let params := splitParams (line.drop nameTok.length)
        let range : Nat × Nat := (p, p + 1 + line.length)
        let (es, ws, ver) :=
          if name = "YAML" then
            if params.length = 0 then ([directiveParamError name range], [], none)
            else ([], [], some (String.mk (params.headD [])))
          else if name = "TAG" then
            if params.length < 2 then ([directiveParamError name range], [], none)
            else ([], [], none)
          else ([], [directiveNameWarning name range], none)
        let (n2, ver2, r2, p2, es2, ws2) := parseDirectives fuel d.1 d.2
        (n2 + 1, match ver2 with | some v => some v | none => ver, r2, p2, es ++ es2, ws ++ ws2)
      else (0, none, c :: rest, p, [], [])

/-- Does this line contain a `: ` (or line-final `:`) making it an implicit
block-mapping key line?  This is the spec's single-ambiguity lookahead. -/
def hasImplicitColon : List Char → Bool
  | [] => false
  | c :: rest =>
    if c = ':' && ((rest.head?.getD ' ') = ' ' || (rest.head?.getD ' ') = '\t') then true
    else hasImplicitColon rest

/-- Modelled from the spec: parse the root content node of a document: flow
collections, quoted scalars, aliases and tagged nodes dispatch directly; a
line with an implicit-key colon opens a block mapping; anything else is a
plain scalar line. -/
def parseContent (fuel : Nat) (cs : List Char) (p : Nat) :
    Option V × List Char × Nat × List YErr × List YErr :=
  let s := skipProlog fuel cs p
  match s.1 with
  | [] => (none, [], s.2, [], [])
  | c :: rest =>
    if c = '\x7b' || c = '[' || c = '"' || c = '*' || c = '!' then
      let r := parseF fuel PMode.node (c :: rest) s.2
      (r.val, r.rest, r.pos, r.errs, r.warns)
    else
      let line := (c :: rest).takeWhile (fun ch => !(ch = '\n'))
      if hasImplicitColon line then
        let (its, r2, p2, es, ws) := parseBlockMap fuel (c :: rest) s.2
        (some (V.vmap its), r2, p2, es, ws)
      else
        (some (resolvePlain (trimRight line)), (c :: rest).drop line.length,
         s.2 + line.length, [], [])

/-- Modelled from the spec: the error recorded when a document is followed by
content with no `...` or `---` separator line; the surplus is consumed. -/
def trailingContentError (p len : Nat) : YErr :=
  ⟨ErrName.YAMLSyntaxError,
   "Document contains trailing content not separated by a ... or --- line",
   NodeType.DOCUMENT, (p, p + len)⟩

/-- Modelled from the spec: the error recorded by the single-document entry
points when the stream holds more than one document. -/
def multipleDocsError (p : Nat) : YErr :=
  ⟨ErrName.YAMLSyntaxError,
   "Source contains multiple documents; please use YAML.parseAllDocuments()",
   NodeType.DOCUMENT, (p, p + 1)⟩

/-- Modelled from the spec: after the root node, decide whether the rest of
the stream is empty, a separated further document, or unseparated trailing
content. -/
def parseEnd (fuel : Nat) (cs : List Char) (p : Nat) : List YErr :=
  let s := skipProlog fuel cs p
  match s.1 with
  | [] => []
  | c :: rest =>
    if (c :: rest).take 3 = ['.', '.', '.'] then
      let d := dropLine (c :: rest) s.2
      let s2 := skipProlog fuel d.1 d.2
      if s2.1.isEmpty then [] else [multipleDocsError s2.2]
    else if (c :: rest).take 3 = ['-', '-', '-'] then
      [multipleDocsError s.2]
    else
      let line := (c :: rest).takeWhile (fun ch => !(ch = '\n'))
      [trailingContentError s.2 line.length]

/-- Modelled from the spec: the parsed `Document`, owning its contents,
errors, warnings and `%YAML` version (the missing `src/doc/Document.js`). -/
structure Document where
  contents : Option V
  errors : List YErr
  warnings : List YErr
  version : Option String

/-- Modelled from the spec: `parseDocument(str)`: prologue, directives with
their required `---` separator, root content node, and the document-end
check, assembled into a `Document` with diagnostics in discovery order (the
missing `src/index.js` and `src/doc/Document.js`). -/
def parseDocument (str : String) : Document :=
  let cs := str.data
  let fuel := cs.length + 2
  let s1 := skipProlog fuel cs 0
  let (nDirs, ver, cs2, p2, dErrs, dWarns) := parseDirectives fuel s1.1 s1.2
  let s2 := skipProlog fuel cs2 p2
  let hasMarker := s2.1.take 3 = ['-', '-', '-']
  let (cs3, p3) :=
    if hasMarker then
      let r := s2.1.drop 3
      let p := s2.2 + 3
      let sk := skipSpaces r p
      match sk.1 with
      | '\n' :: rr => (rr, sk.2 + 1)
      | other => (other, sk.2)
    else (s2.1, s2.2)
  let sepErrs := if nDirs ≠ 0 && !hasMarker then [missingDirEndError s2.2] else []
  let (cv, cs4, p4, cErrs, cWarns) := parseContent fuel cs3 p3
  let eErrs := parseEnd fuel cs4 p4
  ⟨cv, dErrs ++ sepErrs ++ cErrs ++ eErrs, dWarns ++ cWarns, ver⟩

/- ## Ranges to line positions -/

/-- Walk the source, converting a byte offset to a one-based line/column
pair; offsets past the end extend the final column. -/
def lineColAux : List Char → Nat → Nat → Nat → Nat × Nat
  | _, 0, line, col => (line, col)
  | [], k + 1, line, col => (line, col + k + 1)
  | c :: rest, k + 1, line, col =>
    if c = '\n' then lineColAux rest k (line + 1) 1
    else lineColAux rest k line (col + 1)

/-- Modelled from the spec: the `linePos` computation attached to pretty
errors: byte offset to one-based line and column (the missing
`src/cst/source-utils.js` `getLinePos`). -/
def lineColOf (src : String) (off : Nat) : Nat × Nat :=
  lineColAux src.data off 1 1

/- ## The stringifier -/

/-- May this string be emitted as a plain scalar: non-empty, only plain
characters, not a `---` marker lookalike, and implicitly resolving back to
the same string? -/
def plainSafe (s : String) : Bool :=
  !s.data.isEmpty && s.data.all plainCharOk &&
  !(s.data.take 3 = ['-', '-', '-']) &&
  (match resolvePlain s.data with
   | V.vstr t => t = s
   | _ => false)

/-- Escape one character for a double-quoted scalar. -/
def escChar (c : Char) : List Char :=
  if c = '"' || c = '\\' then ['\\', c]
  else if c = '\n' then ['\\', 'n']
  else [c]

/-- Escape a whole string body for double-quoted output. -/
def escape : List Char → List Char
  | [] => []
  | c :: rest => escChar c ++ escape rest

mutual

/-- Modelled from the spec: the stringifier for the modelled value fragment
(the missing `src/stringify.js` and `src/tags` stringifiers): scalars are
plain when that round-trips and double-quoted otherwise; collections are
emitted in flow style, one of the two styles the spec's stringifier chooses,
as the claimed round-trip property is style-independent. -/
def strV : V → List Char
  | V.vnull => ['n', 'u', 'l', 'l']
  | V.vbool true => ['t', 'r', 'u', 'e']
  | V.vbool false => ['f', 'a', 'l', 's', 'e']
  | V.vint n => intToDigits n
  | V.vstr s => if plainSafe s then s.data else '"' :: (escape s.data ++ ['"'])
  | V.vseq l => '[' :: (strItems l ++ [']'])
  | V.vmap l => '\x7b' :: (strPairs l ++ ['\x7d'])

/-- Flow-sequence items joined by comma-space. -/
def strItems : List V → List Char
  | [] => []
  | [v] => strV v
  | v :: vs => strV v ++ [',', ' '] ++ strItems vs

/-- Flow-mapping pairs `key: value` joined by comma-space. -/
def strPairs : List (V × V) → List Char
  | [] => []
  | [kv] => strV kv.1 ++ [':', ' '] ++ strV kv.2
  | kv :: ps => strV kv.1 ++ [':', ' '] ++ strV kv.2 ++ [',', ' '] ++ strPairs ps

end

/-- A stringified document: the root value followed by the final newline the
spec requires. -/
def strDoc (v : V) : List Char := strV v ++ ['\n']

/-- Modelled from the spec: `stringify(value)`: emit the value as a YAML
document ending in a newline. -/
def stringify (v : V) : String := String.mk (strDoc v)

/-- Modelled from the spec: `Document#toString()`: a document whose `errors`
array is non-empty refuses stringification by throwing; otherwise the
contents are stringified (null when empty). -/
def Document.toString (d : Document) : Except String String :=
  if d.errors.isEmpty then
    Except.ok (String.mk (strDoc (d.contents.getD V.vnull)))
  else Except.error "Document with errors cannot be stringified"

/- ## Public entry points -/

/-- Modelled from the spec: the `logLevel` option values. -/
inductive LogLevel where
  | silent
  | error
  | warn
  | debug
deriving DecidableEq

/-- Modelled from the spec: the document options the modelled entry points
consume. -/
structure Options where
  logLevel : LogLevel
  prettyErrors : Bool
  version : String

/-- Modelled from the spec: the `defaultOptions` singleton
(`logLevel: "warn"`, `prettyErrors: true`, `version: "1.2"`). -/
def defaultOptions : Options := ⟨LogLevel.warn, true, "1.2"⟩

/-- Modelled from the spec: the high-level `parse` helper: parses one
document, sends warnings to the pluggable sink (returned here as the list of
emitted messages) unless the log level silences them, throws the first error
unless `logLevel` is `silent`, and otherwise converts the contents to the
host value. -/
def parse (str : String) (opts : Options) : Except YErr V × List String :=
  let d := parseDocument str
  let emitted :=
    if opts.logLevel = LogLevel.warn || opts.logLevel = LogLevel.debug then
      d.warnings.map (fun w => w.message)
    else []
  match d.errors with
  | [] => (Except.ok (d.contents.getD V.vnull), emitted)
  | e :: _ =>
    if opts.logLevel = LogLevel.silent then (Except.ok (d.contents.getD V.vnull), emitted)
    else (Except.error e, emitted)

/-- The head condition under which token reading stops. -/
def stopHead : List Char → Prop
  | [] => True
  | c :: _ => plainCharOk c = false

/-- Heads at which one printed node may legitimately stop inside a document:
nothing, a separator, a closer, a colon or a newline. -/
def stopOk : List Char → Prop
  | [] => True
  | c :: _ => c = ',' ∨ c = ']' ∨ c = '\x7d' ∨ c = ':' ∨ c = '\n'

/-- The continuation applied to a flow-map item once its key node has been
parsed; definitionally the map branch of the parser's item case. -/
def mapItemCont (fuel : Nat) (items : List (V × Option V)) (r1 : PRes) : PRes :=
  let s2 := skipSpaces r1.rest r1.pos
  match s2.1 with
  | ':' :: rest2 =>
    let s3 := skipSpaces rest2 (s2.2 + 1)
    let r2 := parseF fuel PMode.node s3.1 s3.2
    let r3 := parseF fuel
      (PMode.flow true (items ++ [(r1.val.getD V.vnull, some (r2.val.getD V.vnull))]) true)
      r2.rest r2.pos
    withPre (r1.errs ++ r2.errs) (r1.warns ++ r2.warns) r3
  | _ =>
    let r3 := parseF fuel (PMode.flow true (items ++ [(r1.val.getD V.vnull, none)]) true) s2.1 s2.2
    withPre r1.errs r1.warns r3

/- ## Error-class construction (constructor argument validation) -/

/-- Modelled from the spec: the kinds of JavaScript arguments the error-class
constructor may receive: missing, null, a plain object, a CST `Node`
instance, or a string. -/
inductive JSArg where
  | undef
  | jsnull
  | plainObj
  | node
  | str (s : String)
deriving DecidableEq

/-- Modelled from the spec: construction of a `YAMLError` (the missing
`src/errors.js` base class): the core throws synchronously only for
programmer errors such as invalid constructor arguments; a construction is
valid exactly when the source is a CST `Node` instance and the message is a
string. -/
def mkYAMLError (name : JSArg) (source : JSArg) (message : JSArg) :
    Except String (JSArg × String) :=
  match source, message with
  | JSArg.node, JSArg.str m => Except.ok (name, m)
  | _, _ => Except.error "Invalid arguments"

/- ## Decimal numeral lemmas -/

theorem parseDigits_append (l1 l2 : List Char) (a : Nat) :
    parseDigits (l1 ++ l2) a = parseDigits l2 (parseDigits l1 a) := by
  induction l1 generalizing a with
  | nil => rfl
  | cons c rest ih => simp [parseDigits, ih]

theorem digit_char_toNat (n : Nat) (h : n < 10) : (Char.ofNat (48 + n)).toNat = 48 + n := by
  interval_cases n <;> decide

theorem digit_char_isDig (n : Nat) (h : n < 10) : isDig (Char.ofNat (48 + n)) = true := by
  interval_cases n <;> decide

theorem natToDigitsAux_spec :
    ∀ fuel n acc, n < fuel →
      ∃ ds, natToDigitsAux fuel n acc = ds ++ acc ∧ ds ≠ [] ∧
        (∀ c ∈ ds, isDig c = true) ∧
        ∀ a, parseDigits ds a = a * 10 ^ ds.length + n := by
  intro fuel
  induction fuel with
  | zero => intro n acc h; omega
  | succ fuel ih =>
    intro n acc h
    by_cases h10 : n < 10
    · refine ⟨[Char.ofNat (48 + n)], by simp [natToDigitsAux, h10], by simp, ?_, ?_⟩
      · intro c hc
        simp at hc
        subst hc
        exact digit_char_isDig n h10
      · intro a
        simp [parseDigits, digit_char_toNat n h10]
    · have hdiv : n / 10 < fuel := by
        have := Nat.div_lt_self (by omega : 0 < n) (by omega : 1 < 10)
        omega
      obtain ⟨ds, heq, hne, hdig, hval⟩ := ih (n / 10) (Char.ofNat (48 + n % 10) :: acc) hdiv
      refine ⟨ds ++ [Char.ofNat (48 + n % 10)], ?_, by simp, ?_, ?_⟩
      · simp [natToDigitsAux, h10, heq]
      · intro c hc
        rcases List.mem_append.mp hc with h1 | h1
        · exact hdig c h1
        · simp at h1
          subst h1
          exact digit_char_isDig _ (Nat.mod_lt _ (by omega))
      · intro a
        rw [parseDigits_append, hval a]
        simp [parseDigits, digit_char_toNat _ (Nat.mod_lt n (by omega : 0 < 10))]
        rw [pow_succ]
        have hmod := Nat.div_add_mod n 10
        ring_nf
        omega

theorem natToDigits_spec (n : Nat) :
    natToDigits n ≠ [] ∧ (∀ c ∈ natToDigits n, isDig c = true) ∧
      parseDigits (natToDigits n) 0 = n := by
  obtain ⟨ds, heq, hne, hdig, hval⟩ := natToDigitsAux_spec (n + 1) n [] (by omega)
  rw [natToDigits, heq]
  simp at heq ⊢
  exact ⟨hne, hdig, by have := hval 0; simpa using this⟩

theorem isDig_facts (c : Char) (h : isDig c = true) :
    plainCharOk c = true ∧ c ≠ '-' ∧ c ≠ 'n' ∧ c ≠ 'N' ∧ c ≠ '~' ∧ c ≠ 't' ∧
      c ≠ 'T' ∧ c ≠ 'f' ∧ c ≠ 'F' ∧ c ≠ ' ' ∧ c ≠ '\n' ∧ c ≠ '#' ∧ c ≠ '%' ∧
      c ≠ ',' ∧ c ≠ ']' ∧ c ≠ '\x7d' ∧ c ≠ ':' ∧ c ≠ '\x7b' ∧ c ≠ '[' ∧
      c ≠ '"' ∧ c ≠ '*' ∧ c ≠ '!' := by
  simp only [isDig, Bool.and_eq_true, decide_eq_true_eq] at h
  have hne : ∀ m : Nat, m < 48 ∨ 57 < m → c.toNat ≠ m := by omega
  refine ⟨?_, ?_⟩
  · simp only [plainCharOk, Bool.or_eq_false_iff, Bool.not_eq_true',
      Bool.or_eq_true, decide_eq_true_eq, Bool.not_eq_eq_eq_not, Bool.not_true]
    simp only [Bool.or_eq_false_iff, decide_eq_false_iff_not]
    refine ⟨⟨⟨⟨⟨⟨⟨⟨⟨⟨⟨⟨⟨⟨⟨⟨?_, ?_⟩, ?_⟩, ?_⟩, ?_⟩, ?_⟩, ?_⟩, ?_⟩, ?_⟩, ?_⟩, ?_⟩, ?_⟩, ?_⟩, ?_⟩, ?_⟩, ?_⟩, ?_⟩ <;>
      (intro hc; subst hc; revert h; decide)
  · refine ⟨?_, ?_, ?_, ?_, ?_, ?_, ?_, ?_, ?_, ?_, ?_, ?_, ?_, ?_, ?_, ?_, ?_, ?_, ?_, ?_, ?_⟩ <;>
      (intro hc; subst hc; revert h; decide)

/- ## Implicit-resolution lemmas -/

theorem resolvePlain_digits (t : List Char) (hne : t ≠ []) (hd : ∀ c ∈ t, isDig c = true) :
    resolvePlain t = V.vint (parseDigits t 0) := by
  obtain ⟨c, cs, rfl⟩ : ∃ c cs, t = c :: cs := by
    cases t with
    | nil => exact absurd rfl hne
    | cons a b => exact ⟨a, b, rfl⟩
  have hc := hd c (by simp)
  obtain ⟨hplain, hminus, hn, hN, htilde, ht, hT, hf, hF, _⟩ := isDig_facts c hc
  have hrun : digitRun (c :: cs) = true := by
    simp only [digitRun, List.isEmpty_cons, Bool.not_false, Bool.true_and,
      List.all_eq_true, decide_eq_true_eq]
    exact hd
  have hhead : ¬((c :: cs).head? = some '-') := by simp [hminus]
  have hint : intSyntax (c :: cs) = true := by
    rw [intSyntax, if_neg hhead]
    exact hrun
  rw [resolvePlain]
  rw [if_neg (by simp)]
  rw [if_neg (by simp [hn, hN, htilde])]
  rw [if_neg (by simp [ht, hT])]
  rw [if_neg (by simp [hf, hF])]
  rw [if_pos hint, if_neg hhead]

theorem resolvePlain_natToDigits (n : Nat) : resolvePlain (natToDigits n) = V.vint n := by
  obtain ⟨hne, hd, hval⟩ := natToDigits_spec n
  rw [resolvePlain_digits _ hne hd, hval]

theorem resolvePlain_negDigits (n : Nat) :
    resolvePlain ('-' :: natToDigits (n + 1)) = V.vint (Int.negSucc n) := by
  obtain ⟨hne, hd, hval⟩ := natToDigits_spec (n + 1)
  have hrun : digitRun (natToDigits (n + 1)) = true := by
    obtain ⟨d, ds, hds⟩ : ∃ d ds, natToDigits (n + 1) = d :: ds := by
      cases h : natToDigits (n + 1) with
      | nil => exact absurd h hne
      | cons a b => exact ⟨a, b, rfl⟩
    rw [hds]
    simp only [digitRun, List.isEmpty_cons, Bool.not_false, Bool.true_and,
      List.all_eq_true, decide_eq_true_eq]
    intro x hx
    exact hd x (hds ▸ hx)
  have hhead : ('-' :: natToDigits (n + 1)).head? = some '-' := rfl
  have hint : intSyntax ('-' :: natToDigits (n + 1)) = true := by
    rw [intSyntax, if_pos hhead]
    simpa using hrun
  rw [resolvePlain]
  rw [if_neg (by simp)]
  rw [if_neg (by simp)]
  rw [if_neg (by simp)]
  rw [if_neg (by simp)]
  rw [if_pos hint, if_pos hhead]
  simp only [List.drop_succ_cons, List.drop_zero, hval]
  rw [Int.negSucc_eq]
  push_cast
  ring_nf

theorem resolvePlain_intToDigits (n : Int) : resolvePlain (intToDigits n) = V.vint n := by
  cases n with
  | ofNat m => exact resolvePlain_natToDigits m
  | negSucc m => exact resolvePlain_negDigits m

/- ## Plain-scalar token lemmas -/

theorem plainCharOk_facts (c : Char) (h : plainCharOk c = true) :
    c ≠ ',' ∧ c ≠ ']' ∧ c ≠ '\x7d' ∧ c ≠ '\x7b' ∧ c ≠ '[' ∧ c ≠ ':' ∧
      c ≠ ' ' ∧ c ≠ '\n' ∧ c ≠ '\t' ∧ c ≠ '#' ∧ c ≠ '"' ∧ c ≠ '*' ∧
      c ≠ '!' ∧ c ≠ '&' ∧ c ≠ '%' := by
  simp only [plainCharOk, Bool.not_eq_true', Bool.or_eq_false_iff,
    decide_eq_false_iff_not] at h
  tauto

theorem takePlain_append (t r : List Char) (ht : ∀ c ∈ t, plainCharOk c = true)
    (hr : stopHead r) : takePlain (t ++ r) = (t, r) := by
  induction t with
  | nil =>
    cases r with
    | nil => rfl
    | cons c rest =>
      simp only [stopHead] at hr
      simp [takePlain, hr]
  | cons c rest ih =>
    have hc := ht c (by simp)
    simp [takePlain, hc, ih (fun x hx => ht x (by simp [hx]))]

/- ## Double-quoted scalar lemmas -/

theorem readQ_escape (l r : List Char) (p : Nat) :
    readQ (escape l ++ '"' :: r) p = (l, r, p + (escape l).length + 1, []) := by
  induction l generalizing p with
  | nil =>
    cases r with
    | nil => simp [escape, readQ]
    | cons e tl => simp [escape, readQ]
  | cons c rest ih =>
    by_cases hq : c = '"' ∨ c = '\\'
    · have hesc : escChar c = ['\\', c] := by
        rcases hq with h | h <;> simp [escChar, h]
      have hun : unescChar c = c := by
        rcases hq with h | h <;> simp [unescChar, h]
      simp only [escape, hesc, List.cons_append, List.append_assoc, List.nil_append]
      rw [readQ]
      rw [if_neg (by decide : ¬('\\' : Char) = '"'), if_pos rfl]
      rw [ih (p + 2)]
      simp [prependC, hun, hesc, escape]
      omega
    · push_neg at hq
      by_cases hn : c = '\n'
      · subst hn
        have hesc : escChar '\n' = ['\\', 'n'] := by decide
        simp only [escape, hesc, List.cons_append, List.append_assoc, List.nil_append]
        rw [readQ]
        rw [if_neg (by decide : ¬('\\' : Char) = '"'), if_pos rfl]
        rw [ih (p + 2)]
        simp [prependC, unescChar, hesc, escape]
        omega
      · have hesc : escChar c = [c] := by simp [escChar, hq.1, hq.2, hn]
        obtain ⟨e2, tl, htl⟩ : ∃ e2 tl, escape rest ++ '"' :: r = e2 :: tl := by
          cases h : escape rest with
          | nil => exact ⟨'"', r, by simp [h]⟩
          | cons x xs => exact ⟨x, xs ++ '"' :: r, by simp [h]⟩
        simp only [escape, hesc, List.cons_append, List.nil_append, htl]
        rw [readQ]
        rw [if_neg hq.1, if_neg hq.2]
        rw [← htl, ih (p + 1)]
        simp [prependC, hesc, escape]
        omega

/- ## Stringifier shape lemmas -/

theorem mk_data (s : String) : String.mk s.data = s := rfl

theorem plainSafe_spec (s : String) (h : plainSafe s = true) :
    s.data ≠ [] ∧ (∀ c ∈ s.data, plainCharOk c = true) ∧
      s.data.take 3 ≠ ['-', '-', '-'] ∧ resolvePlain s.data = V.vstr s := by
  simp only [plainSafe, Bool.and_eq_true, Bool.not_eq_true', List.all_eq_true,
    decide_eq_true_eq] at h
  obtain ⟨⟨⟨h1, h2⟩, h3⟩, h4⟩ := h
  refine ⟨?_, h2, ?_, ?_⟩
  · intro he
    rw [he] at h1
    simp at h1
  · intro he
    rw [he] at h3
    simp at h3
  · revert h4
    cases hr : resolvePlain s.data <;> intro h4 <;> simp at h4
    rw [h4]

theorem strV_ne_nil (v : V) : strV v ≠ [] := by
  cases v with
  | vnull => simp [strV]
  | vbool b => cases b <;> simp [strV]
  | vint n =>
    cases n with
    | ofNat m =>
      have := (natToDigits_spec m).1
      simpa [strV, intToDigits] using this
    | negSucc m => simp [strV, intToDigits]
  | vstr s =>
    by_cases hps : plainSafe s
    · have := (plainSafe_spec s hps).1
      simpa [strV, hps] using this
    · simp [strV, hps]
  | vseq l => simp [strV]
  | vmap l => simp [strV]

theorem strV_head (v : V) :
    ∃ c cs, strV v = c :: cs ∧ c ≠ ' ' ∧ c ≠ '\n' ∧ c ≠ '\t' ∧ c ≠ '#' ∧
      c ≠ '%' ∧ c ≠ ',' ∧ c ≠ ']' ∧ c ≠ '\x7d' ∧ c ≠ ':' := by
  cases v with
  | vnull => exact ⟨'n', _, rfl, by decide, by decide, by decide, by decide, by decide,
      by decide, by decide, by decide, by decide⟩
  | vbool b =>
    cases b
    · exact ⟨'f', _, rfl, by decide, by decide, by decide, by decide, by decide,
        by decide, by decide, by decide, by decide⟩
    · exact ⟨'t', _, rfl, by decide, by decide, by decide, by decide, by decide,
        by decide, by decide, by decide, by decide⟩
  | vint n =>
    cases n with
    | ofNat m =>
      obtain ⟨hne, hd, _⟩ := natToDigits_spec m
      obtain ⟨c, cs, hcs⟩ : ∃ c cs, natToDigits m = c :: cs := by
        cases h : natToDigits m with
        | nil => exact absurd h hne
        | cons a b => exact ⟨a, b, rfl⟩
      have hc := hd c (by rw [hcs]; simp)
      obtain ⟨_, _, _, _, _, _, _, _, _, h1, h2, h3, h4, h5, h6, h7, h8, _⟩ := isDig_facts c hc
      refine ⟨c, cs, by simpa [strV, intToDigits] using hcs, h1, h2, ?_, h3, h4, h5, h6, h7, h8⟩
      intro he
      subst he
      revert hc
      decide
    | negSucc m => exact ⟨'-', _, rfl, by decide, by decide, by decide, by decide,
        by decide, by decide, by decide, by decide, by decide⟩
  | vstr s =>
    by_cases hps : plainSafe s
    · obtain ⟨hne, hall, _, _⟩ := plainSafe_spec s hps
      obtain ⟨c, cs, hcs⟩ : ∃ c cs, s.data = c :: cs := by
        cases h : s.data with
        | nil => exact absurd h hne
        | cons a b => exact ⟨a, b, rfl⟩
      have hc := hall c (by rw [hcs]; simp)
      obtain ⟨h1, h2, h3, _, _, h6, h7, h8, h9, h10, _⟩ := plainCharOk_facts c hc
      exact ⟨c, cs, by simpa [strV, hps] using hcs, h7, h8, h9, h10,
        (plainCharOk_facts c hc).2.2.2.2.2.2.2.2.2.2.2.2.2.2, h1, h2, h3, h6⟩
    · exact ⟨'"', escape s.data ++ ['"'], by simp [strV, hps], by decide, by decide,
        by decide, by decide, by decide, by decide, by decide, by decide, by decide⟩
  | vseq l => exact ⟨'[', _, rfl, by decide, by decide, by decide, by decide, by decide,
      by decide, by decide, by decide, by decide⟩
  | vmap l => exact ⟨'\x7b', _, rfl, by decide, by decide, by decide, by decide, by decide,
      by decide, by decide, by decide, by decide⟩

/- ## Skip-function lemmas -/

theorem skipSpaces_noop (cs : List Char) (p : Nat)
    (h : ∀ c cs2, cs = c :: cs2 → c ≠ ' ') : skipSpaces cs p = (cs, p) := by
  cases cs with
  | nil => rfl
  | cons c cs2 => simp [skipSpaces, h c cs2 rfl]

theorem skipSpaces_space (cs : List Char) (p : Nat) :
    skipSpaces (' ' :: cs) p = skipSpaces cs (p + 1) := by
  simp [skipSpaces]

theorem skipWSNL_noop (cs : List Char) (p : Nat)
    (h : ∀ c cs2, cs = c :: cs2 → c ≠ ' ' ∧ c ≠ '\n') : skipWSNL cs p = (cs, p) := by
  cases cs with
  | nil => rfl
  | cons c cs2 =>
    obtain ⟨h1, h2⟩ := h c cs2 rfl
    simp [skipWSNL, h1, h2]

/- ## Stop conditions for node parsing -/

theorem stop_not_plain (r : List Char) (h : stopOk r) : stopHead r := by
  cases r with
  | nil => trivial
  | cons c rest =>
    simp only [stopOk] at h
    simp only [stopHead]
    rcases h with h | h | h | h | h <;> subst h <;> decide

/- ## Parsing one printed node -/

theorem parseF_plainTok (f p : Nat) (t r : List Char) (hne : t ≠ [])
    (ht : ∀ c ∈ t, plainCharOk c = true) (hr : stopHead r) :
    parseF (f + 1) PMode.node (t ++ r) p =
      ⟨some (resolvePlain t), r, p + t.length, [], []⟩ := by
  obtain ⟨c, cs, rfl⟩ : ∃ c cs, t = c :: cs := by
    cases t with
    | nil => exact absurd rfl hne
    | cons a b => exact ⟨a, b, rfl⟩
  have hc := ht c (by simp)
  obtain ⟨_, _, h7d, h7b, hbr, _, _, _, _, _, hq, hstar, hbang, _, _⟩ := plainCharOk_facts c hc
  rw [List.cons_append, parseF]
  rw [if_neg h7b, if_neg hbr, if_neg hq, if_neg hstar, if_neg hbang]
  rw [show c :: (cs ++ r) = (c :: cs) ++ r from rfl, takePlain_append (c :: cs) r ht hr]

/- ## Flow-collection step lemmas -/

theorem parseF_seq_close (f p : Nat) (acc : List (V × Option V)) (ai : Bool) (r : List Char) :
    parseF (f + 1) (PMode.flow false acc ai) (']' :: r) p =
      ⟨some (closeFlow false acc), r, p + 1, [], []⟩ := by
  rw [parseF]
  simp [skipWSNL]

theorem parseF_map_close (f p : Nat) (acc : List (V × Option V)) (ai : Bool) (r : List Char) :
    parseF (f + 1) (PMode.flow true acc ai) ('\x7d' :: r) p =
      ⟨some (closeFlow true acc), r, p + 1, [], []⟩ := by
  rw [parseF]
  simp [skipWSNL]

theorem parseF_flow_space (f p : Nat) (m : Bool) (acc : List (V × Option V)) (ai : Bool)
    (cs : List Char) :
    parseF (f + 1) (PMode.flow m acc ai) (' ' :: cs) p =
      parseF (f + 1) (PMode.flow m acc ai) cs (p + 1) := by
  conv_lhs => rw [parseF]
  conv_rhs => rw [parseF]
  simp [skipWSNL]

theorem parseF_flow_comma (f p : Nat) (m : Bool) (acc : List (V × Option V)) (cs : List Char) :
    parseF (f + 1) (PMode.flow m acc true) (',' :: cs) p =
      parseF f (PMode.flow m acc false) cs (p + 1) := by
  rw [parseF]
  cases m <;> simp [skipWSNL]

theorem parseF_seq_item (f p : Nat) (acc : List (V × Option V)) (c : Char) (cs : List Char)
    (h1 : c ≠ ' ') (h2 : c ≠ '\n') (h3 : c ≠ ']') (h4 : c ≠ '\x7d') (h5 : c ≠ ',') :
    parseF (f + 1) (PMode.flow false acc false) (c :: cs) p =
      withPre (parseF f PMode.node (c :: cs) p).errs (parseF f PMode.node (c :: cs) p).warns
        (parseF f
          (PMode.flow false (acc ++ [((parseF f PMode.node (c :: cs) p).val.getD V.vnull, none)]) true)
          (parseF f PMode.node (c :: cs) p).rest (parseF f PMode.node (c :: cs) p).pos) := by
  rw [parseF]
  have hskip : skipWSNL (c :: cs) p = (c :: cs, p) := by
    refine skipWSNL_noop _ _ ?_
    intro a b hab
    injection hab with ha hb
    subst ha
    exact ⟨h1, h2⟩
  simp [hskip, h3, h4, h5]

theorem parseF_map_item (f p : Nat) (acc : List (V × Option V)) (c : Char) (cs : List Char)
    (h1 : c ≠ ' ') (h2 : c ≠ '\n') (h3 : c ≠ ']') (h4 : c ≠ '\x7d') (h5 : c ≠ ',') :
    parseF (f + 1) (PMode.flow true acc false) (c :: cs) p =
      mapItemCont f acc (parseF f PMode.node (c :: cs) p) := by
  rw [parseF]
  have hskip : skipWSNL (c :: cs) p = (c :: cs, p) := by
    refine skipWSNL_noop _ _ ?_
    intro a b hab
    injection hab with ha hb
    subst ha
    exact ⟨h1, h2⟩
  simp [hskip, h3, h4, h5, mapItemCont]

theorem parseF_mapval_step (f : Nat) (acc : List (V × Option V)) (k : V) (X : List Char)
    (q : Nat) (hX : ∀ c cs2, X = c :: cs2 → c ≠ ' ') :
    mapItemCont f acc ⟨some k, ':' :: ' ' :: X, q, [], []⟩ =
      withPre (parseF f PMode.node X (q + 2)).errs (parseF f PMode.node X (q + 2)).warns
        (parseF f
          (PMode.flow true
            (acc ++ [(k, some ((parseF f PMode.node X (q + 2)).val.getD V.vnull))]) true)
          (parseF f PMode.node X (q + 2)).rest (parseF f PMode.node X (q + 2)).pos) := by
  have hskip1 : skipSpaces (':' :: ' ' :: X) q = (':' :: ' ' :: X, q) := by
    refine skipSpaces_noop _ _ ?_
    intro a b hab
    injection hab with ha hb
    subst ha
    decide
  have hskip2 : skipSpaces X (q + 2) = (X, q + 2) := skipSpaces_noop X (q + 2) hX
  simp [mapItemCont, hskip1, skipSpaces_space, hskip2, withPre]

theorem parseF_seq_item2 (f p : Nat) (acc : List (V × Option V)) (c : Char) (cs : List Char)
    (h1 : c ≠ ' ') (h2 : c ≠ '\n') (h3 : c ≠ ']') (h4 : c ≠ '\x7d') (h5 : c ≠ ',')
    (v : V) (rest1 : List Char) (p1 : Nat)
    (hnode : parseF f PMode.node (c :: cs) p = ⟨some v, rest1, p1, [], []⟩) :
    parseF (f + 1) (PMode.flow false acc false) (c :: cs) p =
      parseF f (PMode.flow false (acc ++ [(v, none)]) true) rest1 p1 := by
  rw [parseF_seq_item f p acc c cs h1 h2 h3 h4 h5, hnode]
  simp [withPre]

theorem parseF_map_pair_step (f p : Nat) (acc : List (V × Option V)) (c : Char)
    (cs : List Char) (h1 : c ≠ ' ') (h2 : c ≠ '\n') (h3 : c ≠ ']') (h4 : c ≠ '\x7d')
    (h5 : c ≠ ',') (k : V) (X : List Char) (q : Nat)
    (hX : ∀ c2 cs2, X = c2 :: cs2 → c2 ≠ ' ') (v : V) (rest2 : List Char) (p2 : Nat)
    (hkey : parseF f PMode.node (c :: cs) p = ⟨some k, ':' :: ' ' :: X, q, [], []⟩)
    (hval : parseF f PMode.node X (q + 2) = ⟨some v, rest2, p2, [], []⟩) :
    parseF (f + 1) (PMode.flow true acc false) (c :: cs) p =
      parseF f (PMode.flow true (acc ++ [(k, some v)]) true) rest2 p2 := by
  rw [parseF_map_item f p acc c cs h1 h2 h3 h4 h5, hkey,
    parseF_mapval_step f acc k X q hX, hval]
  simp [withPre]

/- ## The parser inverts the stringifier (value round-trip) -/

mutual

theorem parseF_strV (v : V) : ∀ fuel r p, (strV v).length + 1 ≤ fuel → stopOk r →
    parseF fuel PMode.node (strV v ++ r) p = ⟨some v, r, p + (strV v).length, [], []⟩ := by
  cases v with
  | vnull =>
    intro fuel r p hf hs
    cases fuel with
    | zero => omega
    | succ f =>
      rw [show strV V.vnull = ['n', 'u', 'l', 'l'] from rfl]
      rw [parseF_plainTok f p ['n', 'u', 'l', 'l'] r (by decide) (by decide)
        (stop_not_plain r hs)]
      rfl
  | vbool b =>
    intro fuel r p hf hs
    cases fuel with
    | zero => omega
    | succ f =>
      cases b
      · rw [show strV (V.vbool false) = ['f', 'a', 'l', 's', 'e'] from rfl]
        rw [parseF_plainTok f p ['f', 'a', 'l', 's', 'e'] r (by decide) (by decide)
          (stop_not_plain r hs)]
        rfl
      · rw [show strV (V.vbool true) = ['t', 'r', 'u', 'e'] from rfl]
        rw [parseF_plainTok f p ['t', 'r', 'u', 'e'] r (by decide) (by decide)
          (stop_not_plain r hs)]
        rfl
  | vint n =>
    intro fuel r p hf hs
    cases fuel with
    | zero => omega
    | succ f =>
      have hne : intToDigits n ≠ [] := by
        cases n with
        | ofNat m => simpa [intToDigits] using (natToDigits_spec m).1
        | negSucc m => simp [intToDigits]
      have hall : ∀ c ∈ intToDigits n, plainCharOk c = true := by
        cases n with
        | ofNat m =>
          intro c hcm
          exact (isDig_facts c ((natToDigits_spec m).2.1 c
            (by simpa [intToDigits] using hcm))).1
        | negSucc m =>
          intro c hcm
          simp only [intToDigits, List.mem_cons] at hcm
          rcases hcm with h | h
          · subst h
            decide
          · exact (isDig_facts c ((natToDigits_spec (m + 1)).2.1 c h)).1
      rw [show strV (V.vint n) = intToDigits n from rfl]
      rw [parseF_plainTok f p (intToDigits n) r hne hall (stop_not_plain r hs)]
      rw [resolvePlain_intToDigits]
  | vstr s =>
    intro fuel r p hf hs
    cases fuel with
    | zero => omega
    | succ f =>
      by_cases hps : plainSafe s
      · obtain ⟨hne, hall, _, hres⟩ := plainSafe_spec s hps
        have hsv : strV (V.vstr s) = s.data := by simp [strV, hps]
        rw [hsv]
        rw [parseF_plainTok f p s.data r hne hall (stop_not_plain r hs)]
        rw [hres]
      · have hsv : strV (V.vstr s) = '"' :: (escape s.data ++ ['"']) := by
          simp [strV, hps]
        rw [hsv]
        rw [show ('"' :: (escape s.data ++ ['"'])) ++ r =
          '"' :: (escape s.data ++ '"' :: r) by simp]
        rw [parseF]
        rw [if_neg (by decide), if_neg (by decide), if_pos rfl]
        rw [readQ_escape]
        rw [PRes.mk.injEq]
        refine ⟨by rw [mk_data], rfl, by simp; omega, rfl, rfl⟩
  | vseq l =>
    intro fuel r p hf hs
    cases fuel with
    | zero => omega
    | succ f =>
      have hlen : (strV (V.vseq l)).length = (strItems l).length + 2 := by
        simp [strV]
      rw [show strV (V.vseq l) ++ r = '[' :: (strItems l ++ ']' :: r) by simp [strV]]
      rw [parseF]
      rw [if_neg (by decide), if_pos rfl]
      rw [parseF_strItems l f [] r (p + 1) (by omega)]
      rw [PRes.mk.injEq]
      refine ⟨by simp [closeFlow, Function.comp_def], rfl, by omega, rfl, rfl⟩
  | vmap l =>
    intro fuel r p hf hs
    cases fuel with
    | zero => omega
    | succ f =>
      have hlen : (strV (V.vmap l)).length = (strPairs l).length + 2 := by
        simp [strV]
      rw [show strV (V.vmap l) ++ r = '\x7b' :: (strPairs l ++ '\x7d' :: r) by simp [strV]]
      rw [parseF]
      rw [if_pos rfl]
      rw [parseF_strPairs l f [] r (p + 1) (by omega)]
      rw [PRes.mk.injEq]
      refine ⟨by simp [closeFlow, Function.comp_def], rfl, by omega, rfl, rfl⟩

theorem parseF_strItems (l : List V) : ∀ fuel (acc : List (V × Option V)) r p,
    (strItems l).length + 2 ≤ fuel →
    parseF fuel (PMode.flow false acc false) (strItems l ++ ']' :: r) p =
      ⟨some (closeFlow false (acc ++ l.map fun v => (v, none))), r,
        p + (strItems l).length + 1, [], []⟩ := by
  cases l with
  | nil =>
    intro fuel acc r p hf
    cases fuel with
    | zero => omega
    | succ f =>
      rw [show strItems [] ++ ']' :: r = ']' :: r by simp [strItems]]
      rw [parseF_seq_close]
      simp [strItems]
  | cons v vs =>
    intro fuel acc r p hf
    cases fuel with
    | zero => omega
    | succ f =>
      obtain ⟨c, cs, hv, hc1, hc2, _, _, _, hc6, hc7, hc8, _⟩ := strV_head v
      have hvpos : 0 < (strV v).length := List.length_pos.mpr (strV_ne_nil v)
      cases vs with
      | nil =>
        have hsi : strItems [v] = strV v := rfl
        rw [hsi]
        rw [show strV v ++ ']' :: r = c :: (cs ++ ']' :: r) by rw [hv]; simp]
        rw [parseF_seq_item2 f p acc c (cs ++ ']' :: r) hc1 hc2 hc7 hc8 hc6 v (']' :: r)
          (p + (strV v).length)
          (by rw [show c :: (cs ++ ']' :: r) = strV v ++ ']' :: r by rw [hv]; simp]
              exact parseF_strV v f (']' :: r) p (by rw [hsi] at hf; omega)
                (by simp [stopOk]))]
        obtain ⟨f1, rfl⟩ : ∃ f1, f = f1 + 1 := ⟨f - 1, by rw [hsi] at hf; omega⟩
        rw [parseF_seq_close]
        rw [PRes.mk.injEq]
        refine ⟨by simp, rfl, rfl, rfl, rfl⟩
      | cons v2 vs2 =>
        have hsi : strItems (v :: v2 :: vs2) =
            strV v ++ [',', ' '] ++ strItems (v2 :: vs2) := rfl
        have hilen : (strItems (v :: v2 :: vs2)).length =
            (strV v).length + 2 + (strItems (v2 :: vs2)).length := by
          rw [hsi]
          simp
          omega
        rw [hsi]
        rw [show (strV v ++ [',', ' '] ++ strItems (v2 :: vs2)) ++ ']' :: r =
          c :: (cs ++ ',' :: ' ' :: (strItems (v2 :: vs2) ++ ']' :: r)) by rw [hv]; simp]
        rw [parseF_seq_item2 f p acc c _ hc1 hc2 hc7 hc8 hc6 v
          (',' :: ' ' :: (strItems (v2 :: vs2) ++ ']' :: r)) (p + (strV v).length)
          (by rw [show c :: (cs ++ ',' :: ' ' :: (strItems (v2 :: vs2) ++ ']' :: r)) =
                strV v ++ ',' :: ' ' :: (strItems (v2 :: vs2) ++ ']' :: r) by rw [hv]; simp]
              exact parseF_strV v f _ p (by rw [hilen] at hf; omega) (by simp [stopOk]))]
        obtain ⟨f1, rfl⟩ : ∃ f1, f = f1 + 1 := ⟨f - 1, by rw [hilen] at hf; omega⟩
        rw [parseF_flow_comma]
        obtain ⟨f2, rfl⟩ : ∃ f2, f1 = f2 + 1 := ⟨f1 - 1, by rw [hilen] at hf; omega⟩
        rw [parseF_flow_space]
        rw [parseF_strItems (v2 :: vs2) (f2 + 1) (acc ++ [(v, none)]) r
          (p + (strV v).length + 1 + 1) (by rw [hilen] at hf; omega)]
        rw [PRes.mk.injEq]
        refine ⟨by simp, rfl, by simp; omega, rfl, rfl⟩

theorem parseF_strPairs (l : List (V × V)) : ∀ fuel (acc : List (V × Option V)) r p,
    (strPairs l).length + 2 ≤ fuel →
    parseF fuel (PMode.flow true acc false) (strPairs l ++ '\x7d' :: r) p =
      ⟨some (closeFlow true (acc ++ l.map fun kv => (kv.1, some kv.2))), r,
        p + (strPairs l).length + 1, [], []⟩ := by
  cases l with
  | nil =>
    intro fuel acc r p hf
    cases fuel with
    | zero => omega
    | succ f =>
      rw [show strPairs [] ++ '\x7d' :: r = '\x7d' :: r by simp [strPairs]]
      rw [parseF_map_close]
      simp [strPairs]
  | cons kv ps =>
    intro fuel acc r p hf
    cases fuel with
    | zero => omega
    | succ f =>
      obtain ⟨k, v⟩ := kv
      obtain ⟨c, cs, hv, hc1, hc2, _, _, _, hc6, hc7, hc8, _⟩ := strV_head k
      have hkpos : 0 < (strV k).length := List.length_pos.mpr (strV_ne_nil k)
      have hvpos : 0 < (strV v).length := List.length_pos.mpr (strV_ne_nil v)
      obtain ⟨c2, cs2, hv2, hd1, hd2, _, _, _, _, _, _, _⟩ := strV_head v
      cases ps with
      | nil =>
        have hsp : strPairs [(k, v)] = strV k ++ [':', ' '] ++ strV v := rfl
        have hplen : (strPairs [(k, v)]).length =
            (strV k).length + 2 + (strV v).length := by
          rw [hsp]
          simp
          omega
        rw [hsp]
        rw [show (strV k ++ [':', ' '] ++ strV v) ++ '\x7d' :: r =
          c :: (cs ++ ':' :: ' ' :: (strV v ++ '\x7d' :: r)) by rw [hv]; simp]
        rw [parseF_map_pair_step f p acc c _ hc1 hc2 hc7 hc8 hc6 k
          (strV v ++ '\x7d' :: r) (p + (strV k).length)
          (by intro a b hab; rw [hv2, List.cons_append] at hab;
              injection hab with ha hb; exact ha ▸ hd1)
          v ('\x7d' :: r) (p + (strV k).length + 2 + (strV v).length)
          (by rw [show c :: (cs ++ ':' :: ' ' :: (strV v ++ '\x7d' :: r)) =
                strV k ++ ':' :: ' ' :: (strV v ++ '\x7d' :: r) by rw [hv]; simp]
              exact parseF_strV k f _ p (by rw [hplen] at hf; omega) (by simp [stopOk]))
          (parseF_strV v f ('\x7d' :: r) (p + (strV k).length + 2)
            (by rw [hplen] at hf; omega) (by simp [stopOk]))]
        obtain ⟨f1, rfl⟩ : ∃ f1, f = f1 + 1 := ⟨f - 1, by rw [hplen] at hf; omega⟩
        rw [parseF_map_close]
        rw [PRes.mk.injEq]
        refine ⟨by simp, rfl, by simp; omega, rfl, rfl⟩
      | cons kv2 ps2 =>
        have hsp : strPairs ((k, v) :: kv2 :: ps2) =
            strV k ++ [':', ' '] ++ strV v ++ [',', ' '] ++ strPairs (kv2 :: ps2) := rfl
        have hplen : (strPairs ((k, v) :: kv2 :: ps2)).length =
            (strV k).length + 2 + (strV v).length + 2 + (strPairs (kv2 :: ps2)).length := by
          rw [hsp]
          simp
          omega
        rw [hsp]
        rw [show (strV k ++ [':', ' '] ++ strV v ++ [',', ' '] ++ strPairs (kv2 :: ps2)) ++ '\x7d' :: r =
          c :: (cs ++ ':' :: ' ' :: (strV v ++ ',' :: ' ' :: (strPairs (kv2 :: ps2) ++ '\x7d' :: r)))
          by rw [hv]; simp]
        rw [parseF_map_pair_step f p acc c _ hc1 hc2 hc7 hc8 hc6 k
          (strV v ++ ',' :: ' ' :: (strPairs (kv2 :: ps2) ++ '\x7d' :: r)) (p + (strV k).length)
          (by intro a b hab; rw [hv2, List.cons_append] at hab;
              injection hab with ha hb; exact ha ▸ hd1)
          v (',' :: ' ' :: (strPairs (kv2 :: ps2) ++ '\x7d' :: r))
          (p + (strV k).length + 2 + (strV v).length)
          (by rw [show c :: (cs ++ ':' :: ' ' :: (strV v ++ ',' :: ' ' :: (strPairs (kv2 :: ps2) ++ '\x7d' :: r))) =
                strV k ++ ':' :: ' ' :: (strV v ++ ',' :: ' ' :: (strPairs (kv2 :: ps2) ++ '\x7d' :: r))
                by rw [hv]; simp]
              exact parseF_strV k f _ p (by rw [hplen] at hf; omega) (by simp [stopOk]))
          (parseF_strV v f (',' :: ' ' :: (strPairs (kv2 :: ps2) ++ '\x7d' :: r))
            (p + (strV k).length + 2) (by rw [hplen] at hf; omega) (by simp [stopOk]))]
        obtain ⟨f1, rfl⟩ : ∃ f1, f = f1 + 1 := ⟨f - 1, by rw [hplen] at hf; omega⟩
        rw [parseF_flow_comma]
        obtain ⟨f2, rfl⟩ : ∃ f2, f1 = f2 + 1 := ⟨f1 - 1, by rw [hplen] at hf; omega⟩
        rw [parseF_flow_space]
        rw [parseF_strPairs (kv2 :: ps2) (f2 + 1) (acc ++ [(k, some v)]) r
          (p + (strV k).length + 2 + (strV v).length + 1 + 1) (by rw [hplen] at hf; omega)]
        rw [PRes.mk.injEq]
        refine ⟨by simp, rfl, by simp; omega, rfl, rfl⟩

end

/- ## Document-level round-trip lemmas -/

theorem data_mk (l : List Char) : (String.mk l).data = l := rfl

theorem skipProlog_noop (fuel : Nat) (cs : List Char) (p : Nat)
    (h : ∀ c cs2, cs = c :: cs2 → c ≠ ' ' ∧ c ≠ '\n' ∧ c ≠ '#') :
    skipProlog fuel cs p = (cs, p) := by
  cases fuel with
  | zero => rfl
  | succ f =>
    cases cs with
    | nil => rfl
    | cons c cs2 =>
      obtain ⟨h1, h2, h3⟩ := h c cs2 rfl
      simp [skipProlog, h1, h2, h3]

theorem skipProlog_nil (fuel p : Nat) : skipProlog fuel [] p = ([], p) := by
  cases fuel <;> rfl

theorem parseDirectives_noop (fuel : Nat) (cs : List Char) (p : Nat)
    (h : ∀ c cs2, cs = c :: cs2 → c ≠ '%') :
    parseDirectives fuel cs p = (0, none, cs, p, [], []) := by
  cases fuel with
  | zero => rfl
  | succ f =>
    cases cs with
    | nil => rfl
    | cons c cs2 => simp [parseDirectives, h c cs2 rfl]

theorem takeWhile_nl (t r : List Char) (h : ∀ c ∈ t, c ≠ '\n') :
    (t ++ '\n' :: r).takeWhile (fun ch => !(ch = '\n')) = t := by
  induction t with
  | nil => simp
  | cons c cs ih =>
    simp only [List.cons_append, List.takeWhile_cons]
    rw [if_pos (by simp [h c (by simp)])]
    rw [ih (fun x hx => h x (by simp [hx]))]

theorem hasImplicitColon_none (l : List Char) (h : ∀ c ∈ l, c ≠ ':') :
    hasImplicitColon l = false := by
  induction l with
  | nil => rfl
  | cons c cs ih =>
    rw [hasImplicitColon]
    rw [if_neg (by simp [h c (by simp)])]
    exact ih (fun x hx => h x (by simp [hx]))

theorem trimRight_nospace (l : List Char) (h : ∀ c ∈ l, c ≠ ' ') :
    trimRight l = l := by
  rw [trimRight]
  cases hr : l.reverse with
  | nil =>
    simp [List.reverse_eq_nil_iff.mp hr]
  | cons x xs =>
    have hx : x ∈ l := by
      have : x ∈ l.reverse := by rw [hr]; simp
      simpa using this
    rw [List.dropWhile_cons]
    rw [if_neg (by simp [h x hx])]
    rw [← hr, List.reverse_reverse]

theorem cons_take3_ne (c : Char) (l : List Char) (hc : c ≠ '-') :
    (c :: l).take 3 ≠ ['-', '-', '-'] := by
  intro he
  rw [List.take_succ_cons] at he
  injection he with h1 _
  exact hc h1

theorem cons2_take3_ne (c d : Char) (l : List Char) (hd : d ≠ '-') :
    (c :: d :: l).take 3 ≠ ['-', '-', '-'] := by
  intro he
  rw [List.take_succ_cons, List.take_succ_cons] at he
  injection he with _ he2
  injection he2 with h2 _
  exact hd h2

theorem strV_notDash3 (v : V) : (strV v ++ ['\n']).take 3 ≠ ['-', '-', '-'] := by
  cases v with
  | vnull => decide
  | vbool b => cases b <;> decide
  | vint n =>
    cases n with
    | ofNat m =>
      obtain ⟨hne, hd, _⟩ := natToDigits_spec m
      obtain ⟨d, ds, hds⟩ : ∃ d ds, natToDigits m = d :: ds := by
        cases h : natToDigits m with
        | nil => exact absurd h hne
        | cons a b => exact ⟨a, b, rfl⟩
      have hdig := hd d (by rw [hds]; simp)
      rw [show strV (V.vint (Int.ofNat m)) = natToDigits m from rfl, hds, List.cons_append]
      exact cons_take3_ne _ _ (isDig_facts d hdig).2.1
    | negSucc m =>
      obtain ⟨hne, hd, _⟩ := natToDigits_spec (m + 1)
      obtain ⟨d, ds, hds⟩ : ∃ d ds, natToDigits (m + 1) = d :: ds := by
        cases h : natToDigits (m + 1) with
        | nil => exact absurd h hne
        | cons a b => exact ⟨a, b, rfl⟩
      have hdig := hd d (by rw [hds]; simp)
      rw [show strV (V.vint (Int.negSucc m)) = '-' :: natToDigits (m + 1) from rfl, hds]
      rw [List.cons_append, List.cons_append]
      exact cons2_take3_ne _ _ _ (isDig_facts d hdig).2.1
  | vstr s =>
    by_cases hps : plainSafe s
    · obtain ⟨hne, _, h3, _⟩ := plainSafe_spec s hps
      have hsv : strV (V.vstr s) = s.data := by simp [strV, hps]
      rw [hsv]
      rcases hsd : s.data with _ | ⟨a, _ | ⟨b, _ | ⟨c3, rest⟩⟩⟩
      · exact absurd hsd hne
      · simp
      · simp
      · rw [hsd] at h3
        simpa using h3
    · have hsv : strV (V.vstr s) = '"' :: (escape s.data ++ ['"']) := by simp [strV, hps]
      rw [hsv, List.cons_append]
      exact cons_take3_ne _ _ (by decide)
  | vseq l =>
    rw [show strV (V.vseq l) = '[' :: (strItems l ++ [']']) from rfl, List.cons_append]
    exact cons_take3_ne _ _ (by decide)
  | vmap l =>
    rw [show strV (V.vmap l) = '\x7b' :: (strPairs l ++ ['\x7d']) from rfl, List.cons_append]
    exact cons_take3_ne _ _ (by decide)

theorem parseContent_plainTok (fuel p : Nat) (t : List Char) (hne : t ≠ [])
    (ht : ∀ c ∈ t, plainCharOk c = true) :
    parseContent fuel (t ++ ['\n']) p =
      (some (resolvePlain t), ['\n'], p + t.length, [], []) := by
  obtain ⟨c, cs, rfl⟩ : ∃ c cs, t = c :: cs := by
    cases t with
    | nil => exact absurd rfl hne
    | cons a b => exact ⟨a, b, rfl⟩
  have hc := ht c (by simp)
  obtain ⟨_, _, h7d, h7b, hbr, hcol, hsp, hnl, _, hhash, hq, hstar, hbang, _, _⟩ :=
    plainCharOk_facts c hc
  have hnn : ∀ x ∈ c :: cs, x ≠ '\n' := fun x hx => (plainCharOk_facts x (ht x hx)).2.2.2.2.2.2.2.1
  have hnc : ∀ x ∈ c :: cs, x ≠ ':' := fun x hx => (plainCharOk_facts x (ht x hx)).2.2.2.2.2.1
  have hns : ∀ x ∈ c :: cs, x ≠ ' ' := fun x hx => (plainCharOk_facts x (ht x hx)).2.2.2.2.2.2.1
  rw [parseContent]
  rw [skipProlog_noop fuel _ p (by
    intro a b hab
    rw [List.cons_append] at hab
    injection hab with ha _
    exact ha ▸ ⟨hsp, hnl, hhash⟩)]
  rw [show (c :: cs) ++ ['\n'] = c :: (cs ++ ['\n']) from rfl]
  dsimp only
  rw [if_neg (by simp [h7b, hbr, hq, hstar, hbang])]
  rw [show c :: (cs ++ ['\n']) = (c :: cs) ++ '\n' :: [] from rfl]
  rw [takeWhile_nl (c :: cs) [] hnn]
  rw [hasImplicitColon_none (c :: cs) hnc]
  rw [if_neg (by simp)]
  rw [trimRight_nospace (c :: cs) hns]
  rw [List.drop_left]

theorem parseContent_strDoc (v : V) (fuel p : Nat) (hf : (strV v).length + 1 ≤ fuel) :
    parseContent fuel (strV v ++ ['\n']) p =
      (some v, ['\n'], p + (strV v).length, [], []) := by
  cases v with
  | vnull =>
    rw [show strV V.vnull = ['n', 'u', 'l', 'l'] from rfl]
    rw [parseContent_plainTok fuel p _ (by decide) (by decide)]
    rfl
  | vbool b =>
    cases b
    · rw [show strV (V.vbool false) = ['f', 'a', 'l', 's', 'e'] from rfl]
      rw [parseContent_plainTok fuel p _ (by decide) (by decide)]
      rfl
    · rw [show strV (V.vbool true) = ['t', 'r', 'u', 'e'] from rfl]
      rw [parseContent_plainTok fuel p _ (by decide) (by decide)]
      rfl
  | vint n =>
    have hne : intToDigits n ≠ [] := by
      cases n with
      | ofNat m => simpa [intToDigits] using (natToDigits_spec m).1
      | negSucc m => simp [intToDigits]
    have hall : ∀ c ∈ intToDigits n, plainCharOk c = true := by
      cases n with
      | ofNat m =>
        intro c hcm
        exact (isDig_facts c ((natToDigits_spec m).2.1 c
          (by simpa [intToDigits] using hcm))).1
      | negSucc m =>
        intro c hcm
        simp only [intToDigits, List.mem_cons] at hcm
        rcases hcm with h | h
        · subst h
          decide
        · exact (isDig_facts c ((natToDigits_spec (m + 1)).2.1 c h)).1
    rw [show strV (V.vint n) = intToDigits n from rfl]
    rw [parseContent_plainTok fuel p _ hne hall, resolvePlain_intToDigits]
  | vstr s =>
    by_cases hps : plainSafe s
    · obtain ⟨hne, hall, _, hres⟩ := plainSafe_spec s hps
      have hsv : strV (V.vstr s) = s.data := by simp [strV, hps]
      rw [hsv, parseContent_plainTok fuel p _ hne hall, hres]
    · have hsv : strV (V.vstr s) = '"' :: (escape s.data ++ ['"']) := by simp [strV, hps]
      rw [hsv]
      rw [parseContent]
      rw [skipProlog_noop fuel _ p (by
        intro a b hab
        rw [List.cons_append] at hab
        injection hab with ha _
        subst ha
        refine ⟨by decide, by decide, by decide⟩)]
      rw [show ('"' :: (escape s.data ++ ['"'])) ++ ['\n'] =
        '"' :: (escape s.data ++ ['"'] ++ ['\n']) from by simp]
      dsimp only
      rw [if_pos (by decide)]
      rw [show '"' :: (escape s.data ++ ['"'] ++ ['\n']) =
        ('"' :: (escape s.data ++ ['"'])) ++ ['\n'] from by simp]
      rw [← hsv]
      rw [parseF_strV (V.vstr s) fuel ['\n'] p hf (by simp [stopOk])]
  | vseq l =>
    rw [parseContent]
    rw [skipProlog_noop fuel _ p (by
      intro a b hab
      rw [show strV (V.vseq l) = '[' :: (strItems l ++ [']']) from rfl,
        List.cons_append] at hab
      injection hab with ha _
      subst ha
      refine ⟨by decide, by decide, by decide⟩)]
    rw [show strV (V.vseq l) ++ ['\n'] =
      '[' :: (strItems l ++ [']'] ++ ['\n']) from by simp [strV]]
    dsimp only
    rw [if_pos (by decide)]
    rw [show '[' :: (strItems l ++ [']'] ++ ['\n']) =
      strV (V.vseq l) ++ ['\n'] from by simp [strV]]
    rw [parseF_strV (V.vseq l) fuel ['\n'] p hf (by simp [stopOk])]
  | vmap l =>
    rw [parseContent]
    rw [skipProlog_noop fuel _ p (by
      intro a b hab
      rw [show strV (V.vmap l) = '\x7b' :: (strPairs l ++ ['\x7d']) from rfl,
        List.cons_append] at hab
      injection hab with ha _
      subst ha
      refine ⟨by decide, by decide, by decide⟩)]
    rw [show strV (V.vmap l) ++ ['\n'] =
      '\x7b' :: (strPairs l ++ ['\x7d'] ++ ['\n']) from by simp [strV]]
    dsimp only
    rw [if_pos (by decide)]
    rw [show '\x7b' :: (strPairs l ++ ['\x7d'] ++ ['\n']) =
      strV (V.vmap l) ++ ['\n'] from by simp [strV]]
    rw [parseF_strV (V.vmap l) fuel ['\n'] p hf (by simp [stopOk])]

theorem parseEnd_nl (fuel p : Nat) (hf : 1 ≤ fuel) : parseEnd fuel ['\n'] p = [] := by
  obtain ⟨f, rfl⟩ : ∃ f, fuel = f + 1 := ⟨fuel - 1, by omega⟩
  rw [parseEnd]
  rw [show skipProlog (f + 1) ['\n'] p = ([], p + 1) from by
    rw [skipProlog]
    simp [skipProlog_nil]]

/-- Stringifying any modelled value and parsing the result back yields a
clean document holding exactly that value. -/
theorem parseDocument_stringify (v : V) :
    parseDocument (stringify v) = ⟨some v, [], [], none⟩ := by
  obtain ⟨c, cs, hv, h1, h2, h3, h4, h5, h6, h7, h8, h9⟩ := strV_head v
  have hdata : (stringify v).data = strV v ++ ['\n'] := rfl
  have hheads : ∀ a b, strV v ++ ['\n'] = a :: b → a ≠ ' ' ∧ a ≠ '\n' ∧ a ≠ '#' := by
    intro a b hab
    rw [hv, List.cons_append] at hab
    injection hab with ha _
    exact ha ▸ ⟨h1, h2, h4⟩
  have hpct : ∀ a b, strV v ++ ['\n'] = a :: b → a ≠ '%' := by
    intro a b hab
    rw [hv, List.cons_append] at hab
    injection hab with ha _
    exact ha ▸ h5
  rw [parseDocument, hdata]
  rw [skipProlog_noop _ _ _ hheads]
  dsimp only
  rw [parseDirectives_noop _ _ _ hpct]
  dsimp only
  rw [skipProlog_noop _ _ _ hheads]
  dsimp only
  rw [decide_eq_false (strV_notDash3 v)]
  rw [if_neg (strV_notDash3 v)]
  dsimp only
  rw [parseContent_strDoc v _ 0 (by simp)]
  dsimp only
  rw [parseEnd_nl _ _ (by simp)]
  simp

/-- Stringify-then-parse through the public helpers: no errors, the value is
returned and nothing is emitted to the warning sink. -/
theorem parse_stringify (v : V) :
    parse (stringify v) defaultOptions = (Except.ok v, []) := by
  rw [parse, parseDocument_stringify]
  rfl

/- ## The claims -/

/-- Claim C1: every document whose errors array is non-empty refuses
stringification — `Document.toString` throws instead of producing output —
and the concrete errored parse of the tab-indented map still holds its
best-effort AST (both mapping keys, with null values) in `contents`. -/
theorem spec_C1 :
    (∀ d : Document, d.errors ≠ [] →
      d.toString = Except.error "Document with errors cannot be stringified") ∧
    ((parseDocument "a:\n\t1\nb:\n\t2\n").contents =
        some (V.vmap [(V.vstr "a", V.vnull), (V.vstr "b", V.vnull)]) ∧
      (parseDocument "a:\n\t1\nb:\n\t2\n").errors ≠ []) := by
  refine ⟨?_, rfl, by decide⟩
  intro d hd
  cases h : d.errors with
  | nil => exact absurd h hd
  | cons e es => simp [Document.toString, h]

/-- Claim C1 witness: the tab-indented map document, whose errors array is
non-empty, is refused by stringification. -/
theorem spec_C1_witness :
    (parseDocument "a:\n\t1\nb:\n\t2\n").toString =
      Except.error "Document with errors cannot be stringified" :=
  spec_C1.1 (parseDocument "a:\n\t1\nb:\n\t2\n") (by decide)

/-- Claim C2: for every string whose high-level parse succeeds with value `v`,
stringifying `v` and parsing again under the same (default) options yields a
value equal to `v` — a round-trip of value, not of text. -/
theorem spec_C2 (s : String) (v : V)
    (_h : (parse s defaultOptions).fst = Except.ok v) :
    (parse (stringify v) defaultOptions).fst = Except.ok v := by
  rw [parse_stringify]

/-- Claim C2 witness: instantiated at the input `"null"`. -/
theorem spec_C2_witness :
    (parse "null" defaultOptions).fst = Except.ok V.vnull ∧
    (parse (stringify V.vnull) defaultOptions).fst = Except.ok V.vnull :=
  ⟨rfl, spec_C2 "null" V.vnull rfl⟩

/-- Claim C3 counterexample: under `logLevel: silent` an input whose parsed
document has a non-empty errors array does not throw — the high-level parse
helper returns the best-effort value instead of the first error. -/
theorem spec_C3_counterexample :
    (parseDocument "{ , }").errors ≠ [] ∧
    (parse "{ , }" ⟨LogLevel.silent, true, "1.2"⟩).fst = Except.ok (V.vmap []) := by
  exact ⟨by decide, rfl⟩

/-- Claim C3 (amended): for every input whose parsed document has a non-empty
errors array, the high-level parse helper throws the first error unless
`logLevel` is `silent`; warnings are only emitted via the sink, never
thrown. -/
theorem spec_C3 (opts : Options) (s : String) (e : YErr) (es : List YErr)
    (he : (parseDocument s).errors = e :: es)
    (hl : opts.logLevel ≠ LogLevel.silent) :
    (parse s opts).fst = Except.error e := by
  rw [parse]
  simp only [he]
  simp [hl]

/-- Claim C3 witness: the flow map with an empty item throws its single
syntax error under the default log level. -/
theorem spec_C3_witness :
    (parse "{ , }" defaultOptions).fst =
      Except.error ⟨ErrName.YAMLSyntaxError, "Flow map contains an unexpected ,",
        NodeType.FLOW_MAP, (2, 3)⟩ :=
  spec_C3 defaultOptions "{ , }" _ [] rfl (by decide)

/-- Claim C4: parsing `"a:\n\t1\nb:\n\t2\n"` produces exactly four errors,
each named `YAMLSemanticError`, and stringification of the document is
refused. -/
theorem spec_C4 :
    (parseDocument "a:\n\t1\nb:\n\t2\n").errors.map (fun e => e.name) =
      [ErrName.YAMLSemanticError, ErrName.YAMLSemanticError,
        ErrName.YAMLSemanticError, ErrName.YAMLSemanticError] ∧
    (parseDocument "a:\n\t1\nb:\n\t2\n").toString =
      Except.error "Document with errors cannot be stringified" :=
  ⟨rfl, rfl⟩

/-- Claim C5: parsing `"{ , }"` yields exactly one error, a
`YAMLSyntaxError` with nodeType `FLOW_MAP` pointing at the unexpected comma
(offsets 2–3, i.e. line 1 columns 3–4), and the flow collection itself is
kept in the document's contents. -/
theorem spec_C5 :
    (parseDocument "{ , }").errors =
      [⟨ErrName.YAMLSyntaxError, "Flow map contains an unexpected ,",
        NodeType.FLOW_MAP, (2, 3)⟩] ∧
    lineColOf "{ , }" 2 = (1, 3) ∧ lineColOf "{ , }" 3 = (1, 4) ∧
    (parseDocument "{ , }").contents = some (V.vmap []) :=
  ⟨rfl, rfl, rfl, rfl⟩

/-- Claim C6: the error recorded for a flow collection missing its closing
terminator is a `YAMLSemanticError` whose range covers exactly one character
after the last consumed byte, for every collection kind and position; for the
input `"[ foo, bar,"` it sits at offsets 11–12, i.e. line 1 columns
12–13. -/
theorem spec_C6 :
    (∀ m p, (flowEndError m p).name = ErrName.YAMLSemanticError ∧
      (flowEndError m p).range = (p, p + 1)) ∧
    (parseDocument "[ foo, bar,").errors = [flowEndError false 11] ∧
    lineColOf "[ foo, bar," 11 = (1, 12) ∧ lineColOf "[ foo, bar," 12 = (1, 13) :=
  ⟨fun m p => ⟨by cases m <;> rfl, rfl⟩, rfl, rfl, rfl⟩

/-- Claim C6 witness: the terminator error for the concrete unterminated
sequence covers exactly offsets 11–12. -/
theorem spec_C6_witness : (flowEndError false 11).range = (11, 12) :=
  (spec_C6.1 false 11).2

/-- Claim C7 counterexample: the warning emitted for `"!foo bar"` under the
default log level reads `The tag !foo is unavailable, falling back to
tag:yaml.org,2002:str` — the message quoted by the claim (without the
leading `The `) is not emitted. -/
theorem spec_C7_counterexample :
    (parse "!foo bar" defaultOptions).snd =
      ["The tag !foo is unavailable, falling back to tag:yaml.org,2002:str"] ∧
    "tag !foo is unavailable, falling back to tag:yaml.org,2002:str" ∉
      (parse "!foo bar" defaultOptions).snd := by
  exact ⟨rfl, by decide⟩

/-- Claim C7 (amended): parsing `"!foo bar"` returns the string `"bar"`, and
the warning `The tag !foo is unavailable, falling back to
tag:yaml.org,2002:str` is emitted under the default logLevel but not when
logLevel is `error` or `silent`. -/
theorem spec_C7 :
    (parse "!foo bar" defaultOptions).fst = Except.ok (V.vstr "bar") ∧
    (parse "!foo bar" defaultOptions).snd =
      ["The tag !foo is unavailable, falling back to tag:yaml.org,2002:str"] ∧
    (parse "!foo bar" ⟨LogLevel.error, true, "1.2"⟩).snd = [] ∧
    (parse "!foo bar" ⟨LogLevel.silent, true, "1.2"⟩).snd = [] :=
  ⟨rfl, rfl, rfl, rfl⟩

/-- Claim C8 counterexample: for `"#c\n*x\nfoo\n"` the trailing-content
error recorded in the document's errors is a `YAMLSyntaxError`, not a
`YAMLSemanticError` as claimed. -/
theorem spec_C8_counterexample :
    (parseDocument "#c\n*x\nfoo\n").errors.map (fun e => (e.name, e.message)) =
      [(ErrName.YAMLReferenceError, "Aliased anchor not found: x"),
        (ErrName.YAMLSyntaxError,
          "Document contains trailing content not separated by a ... or --- line")] ∧
    ErrName.YAMLSyntaxError ≠ ErrName.YAMLSemanticError :=
  ⟨rfl, by decide⟩

/-- Claim C8 (amended): the trailing-content error recorded for input with
content not separated by a `...` or `---` line is a `YAMLSyntaxError` (for
every position and length it is constructed with), and the concrete input
`"#c\n*x\nfoo\n"` records exactly that error. -/
theorem spec_C8 :
    (∀ p len, (trailingContentError p len).name = ErrName.YAMLSyntaxError) ∧
    trailingContentError 6 3 ∈ (parseDocument "#c\n*x\nfoo\n").errors := by
  refine ⟨fun p len => rfl, ?_⟩
  have h : (parseDocument "#c\n*x\nfoo\n").errors =
      [aliasError "x" (3, 5), trailingContentError 6 3] := rfl
  rw [h]
  simp

/-- Claim C8 witness: a concrete trailing-content error is named
`YAMLSyntaxError`. -/
theorem spec_C8_witness : (trailingContentError 0 1).name = ErrName.YAMLSyntaxError :=
  spec_C8.1 0 1

/-- Claim C9 counterexample: for `"%YAML 1.2\n"` the missing-separator error
is bound to the document node (`nodeType DOCUMENT`), not to the directive
node as claimed. -/
theorem spec_C9_counterexample :
    (parseDocument "%YAML 1.2\n").errors =
      [⟨ErrName.YAMLSemanticError, "Missing directives-end indicator line",
        NodeType.DOCUMENT, (10, 11)⟩] ∧
    NodeType.DOCUMENT ≠ NodeType.DIRECTIVE :=
  ⟨rfl, by decide⟩

/-- Claim C9 (amended): directives not followed by a `---` line raise a
semantic error bound to the document node (for every position it is raised
at), and the concrete input `"%YAML 1.2\n"` records exactly that error. -/
theorem spec_C9 :
    (∀ p, (missingDirEndError p).name = ErrName.YAMLSemanticError ∧
      (missingDirEndError p).nodeType = NodeType.DOCUMENT) ∧
    missingDirEndError 10 ∈ (parseDocument "%YAML 1.2\n").errors := by
  refine ⟨fun p => ⟨rfl, rfl⟩, ?_⟩
  have h : (parseDocument "%YAML 1.2\n").errors = [missingDirEndError 10] := rfl
  rw [h]
  simp

/-- Claim C9 witness: a concrete missing-separator error is semantic and
bound to the document node. -/
theorem spec_C9_witness : (missingDirEndError 0).nodeType = NodeType.DOCUMENT :=
  (spec_C9.1 0).2

/-- Claim C10: constructing a `YAMLError` succeeds exactly when it is given
a CST `Node` instance as source and a string message; all other argument
combinations throw `Invalid arguments`. -/
theorem spec_C10 (name source message : JSArg) :
    (mkYAMLError name source message).isOk = true ↔
      source = JSArg.node ∧ ∃ m, message = JSArg.str m := by
  cases source <;> cases message <;> simp [mkYAMLError, Except.isOk, Except.toBool]

/-- Claim C10 witness: with a `Node` source and string message the
construction succeeds; with the message missing it throws. -/
theorem spec_C10_witness :
    (mkYAMLError (JSArg.str "Foo") JSArg.node (JSArg.str "foo")).isOk = true ∧
    (mkYAMLError (JSArg.str "Foo") JSArg.node JSArg.undef).isOk = false := by
  constructor
  · exact (spec_C10 (JSArg.str "Foo") JSArg.node (JSArg.str "foo")).mpr ⟨rfl, "foo", rfl⟩
  · decide

end YamlModel
